import Mathlib

/-!
Formal verification of the terminal-color-solver repository.

The development shallowly embeds:

* the genetic-algorithm kernels and the host-side best-ever tracking of
  src/hexa-color-solver.cu over the rationals (the kernel arithmetic is
  linear — sums, products, comparisons — and is represented exactly on
  rational inputs); every `curand` draw is passed in as an explicit input,
  so the kernels become pure functions of the population and the draws;
* the theme-file writer of src/hexa-color-solver.cu as a pure function from
  a palette to the list of emitted lines;
* the WCAG 2.1, APCA and OKLCH color mathematics of src/color.cuh
  (the double-precision variant) over the real numbers, with `pow`
  modelled by `Real.rpow`.
-/

/-! ## Data model: palettes and per-slot search ranges (src/hexa-color-solver.cu) -/

/-- A candidate palette: 16 color slots of 3 channels each.  Models one
individual's 48-float block of the population array (idx * 16 * 3 + color * 3 + c). -/
abbrev Palette := Fin 16 → Fin 3 → ℚ

/-- Mirrors `struct ColorRange` (src/hexa-color-solver.cu lines 95–100). -/
structure ColorRange where
  r_min : ℚ
  r_max : ℚ
  g_min : ℚ
  g_max : ℚ
  b_min : ℚ
  b_max : ℚ
  fixed : Bool

/-- Mirrors the `color_ranges[16]` table (src/hexa-color-solver.cu lines 111–131),
with BLACK_RGB = 0,0,0,0,0,0,true and BR_WHITE_RGB = 255,…,255,true expanded. -/
def color_ranges : Fin 16 → ColorRange
  | ⟨0, _⟩ => ⟨0, 0, 0, 0, 0, 0, true⟩
  | ⟨1, _⟩ => ⟨140, 255, 0, 150, 0, 150, false⟩
  | ⟨2, _⟩ => ⟨0, 120, 80, 255, 0, 120, false⟩
  | ⟨3, _⟩ => ⟨200, 255, 160, 220, 0, 20, false⟩
  | ⟨4, _⟩ => ⟨0, 160, 0, 240, 120, 255, false⟩
  | ⟨5, _⟩ => ⟨140, 255, 0, 180, 140, 255, false⟩
  | ⟨6, _⟩ => ⟨0, 100, 80, 255, 80, 255, false⟩
  | ⟨7, _⟩ => ⟨180, 220, 180, 220, 180, 220, false⟩
  | ⟨8, _⟩ => ⟨50, 80, 50, 80, 50, 80, false⟩
  | ⟨9, _⟩ => ⟨180, 255, 80, 200, 80, 200, false⟩
  | ⟨10, _⟩ => ⟨80, 200, 160, 255, 80, 200, false⟩
  | ⟨11, _⟩ => ⟨180, 255, 180, 255, 80, 180, false⟩
  | ⟨12, _⟩ => ⟨80, 200, 120, 255, 160, 255, false⟩
  | ⟨13, _⟩ => ⟨180, 255, 80, 200, 180, 255, false⟩
  | ⟨14, _⟩ => ⟨80, 180, 180, 255, 180, 255, false⟩
  | ⟨15, _⟩ => ⟨255, 255, 255, 255, 255, 255, true⟩
  | ⟨n + 16, h⟩ => absurd h (by omega)

/-- Per-channel lower bound of a range: the `c == 0 / 1 / 2` selection of
`r_min / g_min / b_min` used throughout the kernels. -/
def range_lo (range : ColorRange) : Fin 3 → ℚ
  | ⟨0, _⟩ => range.r_min
  | ⟨1, _⟩ => range.g_min
  | ⟨2, _⟩ => range.b_min
  | ⟨n + 3, h⟩ => absurd h (by omega)

/-- Per-channel upper bound of a range (`r_max / g_max / b_max`). -/
def range_hi (range : ColorRange) : Fin 3 → ℚ
  | ⟨0, _⟩ => range.r_max
  | ⟨1, _⟩ => range.g_max
  | ⟨2, _⟩ => range.b_max
  | ⟨n + 3, h⟩ => absurd h (by omega)

/-! ## Population initialization (init_population, src/hexa-color-solver.cu 167–189) -/

/-- One individual of `init_population`: for each slot, the fixed branch writes
`r_min, g_min, b_min`; otherwise each channel is `min + u * (max - min)` with
`u` the `curand_uniform` draw for that channel. -/
def init_palette (u : Fin 16 → Fin 3 → ℚ) : Palette := fun color c =>
  let range := color_ranges color
  if range.fixed then range_lo range c
  else range_lo range c + u color c * (range_hi range c - range_lo range c)

/-- The whole `init_population` kernel: one palette per population index, each
from its own draw stream. -/
def init_population (u : ℕ → Fin 16 → Fin 3 → ℚ) : ℕ → Palette := fun idx =>
  init_palette (u idx)

/-! ## Crossover and mutation (crossover_and_mutate, src/hexa-color-solver.cu 462–532) -/

/-- The three random draws the kernel makes per non-fixed channel, in order:
the uniform crossover pick (`curand_uniform < 0.5`), the mutation gate
(`curand_uniform < mutation_rate`) and the Gaussian perturbation
(`curand_normal`, here an arbitrary rational). -/
structure MutDraw where
  pick : ℚ
  gate : ℚ
  noise : ℚ

/-- Mutation of one channel value (src/hexa-color-solver.cu lines 510–524):
when the gate fires, add `noise * (max - min) * 0.1` and clamp by the two
sequential `if`s of the source. -/
def mutate_channel (lo hi val : ℚ) (d : MutDraw) (rate : ℚ) : ℚ :=
  if d.gate < rate then
    let v := val + d.noise * (hi - lo) * 0.1
    let v1 := if v < lo then lo else v
    if v1 > hi then hi else v1
  else val

/-- One offspring palette (the non-elite branch of the kernel, lines 491–529):
fixed slots are rewritten to their constants; otherwise each channel is taken
from parent 1 when `pick < 0.5` and parent 2 otherwise, then possibly mutated. -/
def offspring (p1 p2 : Palette) (d : Fin 16 → Fin 3 → MutDraw) (rate : ℚ) : Palette :=
  fun color c =>
    let range := color_ranges color
    if range.fixed then range_lo range c
    else
      let val := if (d color c).pick < 0.5 then p1 color c else p2 color c
      mutate_channel (range_lo range c) (range_hi range c) val (d color c) rate

/-- The C cast `(int)` of a rational: truncation toward zero. -/
def trunc_to_int (q : ℚ) : ℤ := if 0 ≤ q then ⌊q⌋ else ⌈q⌉

/-- Parent selection index, `(int)(curand_uniform(&localState) * elite_count)`
(src/hexa-color-solver.cu lines 485–486). -/
def parent_index (u : ℚ) (elite_count : ℕ) : ℤ := trunc_to_int (u * elite_count)

/-- The per-individual draws of the `crossover_and_mutate` kernel: the two
parent-selection uniforms, then the per-channel crossover/mutation draws. -/
structure OffspringDraws where
  u1 : ℚ
  u2 : ℚ
  comp : Fin 16 → Fin 3 → MutDraw

/-- The `crossover_and_mutate` kernel for one output index: indices below
`elite_count` copy `old_pop[elite_indices[idx]]` verbatim (lines 473–482); the
rest breed an offspring from two parents looked up through `elite_indices`. -/
def crossover_and_mutate (old : ℕ → Palette) (elite_indices : ℕ → ℕ)
    (elite_count : ℕ) (draws : ℕ → OffspringDraws) (mutation_rate : ℚ) :
    ℕ → Palette := fun idx =>
  if idx < elite_count then old (elite_indices idx)
  else
    let p1 := old (elite_indices (parent_index (draws idx).u1 elite_count).toNat)
    let p2 := old (elite_indices (parent_index (draws idx).u2 elite_count).toNat)
    offspring p1 p2 (draws idx).comp mutation_rate

/-- The population after `g` reproduction steps of the evolution loop in `main`:
generation 0 is the initialized population, and each later generation is the
kernel applied to the previous one (with that generation's elite indices,
elite count, draws and mutation rate all given as inputs). -/
def population_at (u0 : ℕ → Fin 16 → Fin 3 → ℚ) (elites : ℕ → ℕ → ℕ) (ec : ℕ → ℕ)
    (draws : ℕ → ℕ → OffspringDraws) (rate : ℕ → ℚ) : ℕ → ℕ → Palette
  | 0 => init_population u0
  | g + 1 =>
      crossover_and_mutate (population_at u0 elites ec draws rate g)
        (elites g) (ec g) (draws g) (rate g)

/-! ## Best-ever tracking (main, src/hexa-color-solver.cu 897–914) -/

/-- One generation of best-ever tracking: the record (fitness, palette) is
replaced exactly when `gen_best > best_ever_fitness`. -/
def best_ever_step (best : ℚ × Palette) (gen : ℚ × Palette) : ℚ × Palette :=
  if best.1 < gen.1 then gen else best

/-- Best-ever tracking folded over a whole run's per-generation bests. -/
def best_ever_run (init : ℚ × Palette) (gens : List (ℚ × Palette)) : ℚ × Palette :=
  gens.foldl best_ever_step init

/-! ## Invariants -/

/-- Slot 0 is exactly #000000 and slot 15 exactly #ffffff. -/
def fixed_slots_ok (p : Palette) : Prop :=
  (∀ c, p 0 c = 0) ∧ (∀ c, p 15 c = 255)

/-- Every channel of every non-fixed slot lies within its configured range. -/
def in_bounds (p : Palette) : Prop :=
  ∀ color c, (color_ranges color).fixed = false →
    range_lo (color_ranges color) c ≤ p color c ∧
      p color c ≤ range_hi (color_ranges color) c

/-- Per-channel lower bounds never exceed upper bounds in the ranges table. -/
lemma ranges_lo_le_hi : ∀ color c,
    range_lo (color_ranges color) c ≤ range_hi (color_ranges color) c := by decide

/-- Fixed slots of any initialized palette hold their constants. -/
lemma init_palette_fixed (u : Fin 16 → Fin 3 → ℚ) : fixed_slots_ok (init_palette u) := by
  constructor
  · intro c
    match c with
    | ⟨0, _⟩ => rfl
    | ⟨1, _⟩ => rfl
    | ⟨2, _⟩ => rfl
  · intro c
    match c with
    | ⟨0, _⟩ => rfl
    | ⟨1, _⟩ => rfl
    | ⟨2, _⟩ => rfl

/-- Fixed slots of any offspring hold their constants (the kernel rewrites
them regardless of parentage). -/
lemma offspring_fixed (p1 p2 : Palette) (d : Fin 16 → Fin 3 → MutDraw) (rate : ℚ) :
    fixed_slots_ok (offspring p1 p2 d rate) := by
  constructor
  · intro c
    match c with
    | ⟨0, _⟩ => rfl
    | ⟨1, _⟩ => rfl
    | ⟨2, _⟩ => rfl
  · intro c
    match c with
    | ⟨0, _⟩ => rfl
    | ⟨1, _⟩ => rfl
    | ⟨2, _⟩ => rfl

/-- A reproduction step preserves the fixed-slot invariant. -/
lemma crossover_fixed (old : ℕ → Palette) (elite_indices : ℕ → ℕ) (elite_count : ℕ)
    (draws : ℕ → OffspringDraws) (rate : ℚ)
    (h : ∀ i, fixed_slots_ok (old i)) (idx : ℕ) :
    fixed_slots_ok (crossover_and_mutate old elite_indices elite_count draws rate idx) := by
  unfold crossover_and_mutate
  split
  · exact h _
  · exact offspring_fixed _ _ _ _

/-- C1: after initialization and after every crossover/mutation step — hence in
every individual of every generation of the evolution loop — palette slot 0 is
exactly #000000 and slot 15 exactly #ffffff; the loop never changes them. -/
theorem c1_fixed_slots_invariant :
    (∀ u idx, fixed_slots_ok (init_population u idx)) ∧
    (∀ old elite_indices elite_count draws rate,
        (∀ i, fixed_slots_ok (old i)) →
        ∀ idx, fixed_slots_ok
          (crossover_and_mutate old elite_indices elite_count draws rate idx)) ∧
    (∀ u0 elites ec draws rate g idx,
        fixed_slots_ok (population_at u0 elites ec draws rate g idx)) := by
  refine ⟨fun u idx => init_palette_fixed _, fun _ _ _ _ _ h idx => crossover_fixed _ _ _ _ _ h idx, ?_⟩
  intro u0 elites ec draws rate g
  induction g with
  | zero => exact fun idx => init_palette_fixed _
  | succ g ih => exact fun idx => crossover_fixed _ _ _ _ _ ih idx

/-- Clamping lands in the range when the range is nonempty. -/
lemma mutate_channel_mem (lo hi val : ℚ) (d : MutDraw) (rate : ℚ)
    (hlh : lo ≤ hi) (h1 : lo ≤ val) (h2 : val ≤ hi) :
    lo ≤ mutate_channel lo hi val d rate ∧ mutate_channel lo hi val d rate ≤ hi := by
  unfold mutate_channel
  split
  · set v := val + d.noise * (hi - lo) * 0.1 with hv
    by_cases hvlo : v < lo
    · simp only [if_pos hvlo]
      by_cases hhi : lo > hi
      · exact absurd hhi (not_lt.mpr hlh)
      · simp only [if_neg hhi]
        exact ⟨le_refl _, hlh⟩
    · simp only [if_neg hvlo]
      by_cases hhi : v > hi
      · simp only [if_pos hhi]
        exact ⟨hlh, le_refl _⟩
      · simp only [if_neg hhi]
        exact ⟨not_lt.mp hvlo, not_lt.mp hhi⟩
  · exact ⟨h1, h2⟩

/-- C2: palettes produced by the population initializer (from in-range uniform
draws) and offspring of in-bounds parents have every channel of every
non-fixed slot within that slot's configured ColorRange bounds. -/
theorem c2_bounds_invariant :
    (∀ u : ℕ → Fin 16 → Fin 3 → ℚ,
        (∀ idx color c, 0 ≤ u idx color c ∧ u idx color c ≤ 1) →
        ∀ idx, in_bounds (init_population u idx)) ∧
    (∀ p1 p2 d rate, in_bounds p1 → in_bounds p2 →
        in_bounds (offspring p1 p2 d rate)) := by
  constructor
  · intro u hu idx color c hfix
    have hlh := ranges_lo_le_hi color c
    have hu1 := (hu idx color c).1
    have hu2 := (hu idx color c).2
    unfold init_population init_palette
    simp only [hfix, Bool.false_eq_true, if_false]
    constructor
    · nlinarith
    · nlinarith
  · intro p1 p2 d rate h1 h2 color c hfix
    have hlh := ranges_lo_le_hi color c
    unfold offspring
    simp only [hfix, Bool.false_eq_true, if_false]
    by_cases hp : (d color c).pick < 0.5
    · simp only [if_pos hp]
      exact mutate_channel_mem _ _ _ _ _ hlh (h1 color c hfix).1 (h1 color c hfix).2
    · simp only [if_neg hp]
      exact mutate_channel_mem _ _ _ _ _ hlh (h2 color c hfix).1 (h2 color c hfix).2

/-- C3: the best-ever record's fitness never decreases, is replaced exactly when
a generation's best strictly exceeds it, and is otherwise left unchanged; folded
over any whole run the best-ever fitness is non-decreasing. -/
theorem c3_best_ever_monotone :
    (∀ b g, b.1 ≤ (best_ever_step b g).1) ∧
    (∀ b g : ℚ × Palette, b.1 < g.1 → best_ever_step b g = g) ∧
    (∀ b g : ℚ × Palette, ¬ b.1 < g.1 → best_ever_step b g = b) ∧
    (∀ b gens, b.1 ≤ (best_ever_run b gens).1) := by
  have hstep : ∀ b g : ℚ × Palette, b.1 ≤ (best_ever_step b g).1 := by
    intro b g
    unfold best_ever_step
    split
    · exact le_of_lt (by assumption)
    · exact le_refl _
  refine ⟨hstep, ?_, ?_, ?_⟩
  · intro b g h
    unfold best_ever_step
    exact if_pos h
  · intro b g h
    unfold best_ever_step
    exact if_neg h
  · intro b gens
    induction gens generalizing b with
    | nil => exact le_refl _
    | cons g gens ih =>
        exact le_trans (hstep b g) (ih (best_ever_step b g))

/-- C4: evaluation of the parent-selection index at the failing draw.
`curand_uniform` has documented range (0, 1]; at the boundary draw `u = 1.0`
and the default elite count 20000 (population 200000 × elite ratio 0.1) the
index `(int)(u * elite_count)` equals `elite_count` itself, so the read of
`elite_indices` is one past the end, contradicting the claim that the index
always lies in [0, elite_count). -/
theorem c4_parent_index_overflow :
    parent_index 1 20000 = 20000 ∧ ¬ parent_index 1 20000 < 20000 := by
  constructor
  · norm_num [parent_index, trunc_to_int]
  · norm_num [parent_index, trunc_to_int]

/-- For draws strictly below 1 the parent index is in range: the out-of-bounds
read can only happen at the boundary draw `u = 1.0`. -/
lemma parent_index_lt (u : ℚ) (hu0 : 0 ≤ u) (hu1 : u < 1) (ec : ℕ) (hec : 0 < ec) :
    0 ≤ parent_index u ec ∧ parent_index u ec < ec := by
  unfold parent_index trunc_to_int
  have hmul0 : (0 : ℚ) ≤ u * ec := mul_nonneg hu0 (by positivity)
  rw [if_pos hmul0]
  constructor
  · exact Int.floor_nonneg.mpr hmul0
  · have : u * ec < ec := by
      have hc : (0 : ℚ) < ec := by exact_mod_cast hec
      nlinarith
    exact Int.floor_lt.mpr (by exact_mod_cast this)

/-! ## Claim C5: where elites land in the next generation -/

/-- C5 (amended): every elite is copied bit-identically into the next
generation, at the index equal to its fitness rank: for `idx < elite_count`
the new population at `idx` is exactly the old individual `elite_indices idx`. -/
theorem c5_elite_copy_at_rank (old : ℕ → Palette) (elite_indices : ℕ → ℕ)
    (elite_count : ℕ) (draws : ℕ → OffspringDraws) (rate : ℚ) (idx : ℕ)
    (h : idx < elite_count) :
    crossover_and_mutate old elite_indices elite_count draws rate idx
      = old (elite_indices idx) := by
  unfold crossover_and_mutate
  exact if_pos h

/-- A palette with every draw at 1: each non-fixed channel sits at its upper
bound (so slot 1 channel 0 is 255). -/
def cex_palette_a : Palette := init_palette fun _ _ => 1

/-- A palette with every draw at 0: each non-fixed channel sits at its lower
bound (so slot 1 channel 0 is 140). -/
def cex_palette_b : Palette := init_palette fun _ _ => 0

/-- A 100-individual population whose best individual (palette `a`) sits at
index 50; everyone else is palette `b`. -/
def cex_old : ℕ → Palette := fun i => if i = 50 then cex_palette_a else cex_palette_b

/-- Elite indices produced by ranking that population with elite count 10:
the best individual, index 50, is ranked first, then indices 0–8. -/
def cex_elites : ℕ → ℕ := fun i => if i = 0 then 50 else i - 1

/-- Concrete draws: both parent uniforms are 0.15 (selecting elite rank 1,
population index 0), crossover always picks parent 1, and the mutation gate
never fires. -/
def cex_draws : ℕ → OffspringDraws := fun _ => ⟨0.15, 0.15, fun _ _ => ⟨0, 1, 0⟩⟩

/-- C5 counterexample: in this reproduction step the individual at index 50 is
an elite (rank 0), yet the next generation at index 50 is not a copy of it —
slot 1 channel 0 changes from 255 to 140 — so elites are not kept "at the
same indices" they occupied. -/
theorem c5_elite_copy_counterexample :
    cex_elites 0 = 50 ∧
    crossover_and_mutate cex_old cex_elites 10 cex_draws 0.15 50 1 0 ≠
      cex_old 50 1 0 := by
  refine ⟨rfl, ?_⟩
  have hpi : (parent_index (0.15 : ℚ) 10).toNat = 1 := by
    have h1 : parent_index (0.15 : ℚ) 10 = 1 := by
      unfold parent_index trunc_to_int
      rw [if_pos (by norm_num : (0 : ℚ) ≤ 0.15 * (10 : ℕ))]
      norm_num
    rw [h1]
    rfl
  have hb : cex_palette_b 1 0 = 140 := by
    show (140 : ℚ) + 0 * (255 - 140) = 140
    norm_num
  have ha : cex_palette_a 1 0 = 255 := by
    show (140 : ℚ) + 1 * (255 - 140) = 255
    norm_num
  have hLHS : crossover_and_mutate cex_old cex_elites 10 cex_draws 0.15 50 1 0 = 140 := by
    unfold crossover_and_mutate
    rw [if_neg (by norm_num : ¬ (50 : ℕ) < 10)]
    simp only [cex_draws]
    rw [hpi]
    show offspring cex_palette_b cex_palette_b (fun _ _ => ⟨0, 1, 0⟩) 0.15 1 0 = 140
    simp only [offspring]
    rw [if_neg (by decide : ¬ ((color_ranges 1).fixed = true))]
    rw [ite_self]
    simp only [mutate_channel]
    rw [if_neg (by norm_num : ¬ ((1 : ℚ) < 0.15))]
    exact hb
  have hRHS : cex_old 50 1 0 = 255 := by
    show cex_palette_a 1 0 = 255
    exact ha
  rw [hLHS, hRHS]
  norm_num

/-- Witness for `c5_elite_copy_at_rank` at a concrete input: in the same step,
elite rank 0 — the old index-50 individual — is copied verbatim to index 0. -/
theorem c5_elite_copy_witness :
    crossover_and_mutate cex_old cex_elites 10 cex_draws 0.15 0 = cex_old 50 := by
  have h := c5_elite_copy_at_rank cex_old cex_elites 10 cex_draws 0.15 0 (by norm_num)
  simpa [cex_elites] using h

/-! ## Theme-file writer (write_theme_file, src/hexa-color-solver.cu 657–714) -/

/-- One lowercase hexadecimal digit. -/
def hex_digit (n : ℕ) : Char :=
  if n < 10 then Char.ofNat (48 + n) else Char.ofNat (87 + n)

/-- The `%02x` rendering of a byte value (two lowercase hex digits; the theme
writer only ever formats channel values in [0, 255]). -/
def byte_hex (n : ℕ) : String := String.mk [hex_digit (n / 16), hex_digit (n % 16)]

/-- The `(int)` cast applied to a channel before formatting, as a natural
number (channel values are non-negative in every palette the writer sees). -/
def channel_byte (q : ℚ) : ℕ := (trunc_to_int q).toNat

/-- The `#rrggbb` body for one palette slot. -/
def slot_hex (p : Palette) (i : Fin 16) : String :=
  byte_hex (channel_byte (p i 0)) ++ byte_hex (channel_byte (p i 1)) ++
    byte_hex (channel_byte (p i 2))

/-- The lines `write_theme_file` emits, in order: the header comment, one
`palette = <index>=#<rrggbb>` line per slot 0–15, then the derived fields —
`background` and `cursor-text` from slot 0 (BLACK), `foreground` from slot 7
(WHITE), `cursor-color` from slot 11 (BR_YELLOW), `selection-background` from
slot 4 (BLUE) and the literal `selection-foreground = #ffffff`.  Blank lines
mirror the `\n` separators of the source. -/
def theme_lines (p : Palette) : List String :=
  ["# WCAG-Optimized Theme",
   "# Generated by CUDA Color Optimizer v2.5",
   "# Constraints: Red>=5.5, Green>=4.5, others>=3.5 on black",
   "#", ""]
  ++ (List.finRange 16).map
      (fun i => "palette = " ++ toString i.val ++ "=#" ++ slot_hex p i)
  ++ ["",
      "background = #" ++ slot_hex p 0,
      "foreground = #" ++ slot_hex p 7,
      "",
      "cursor-color = #" ++ slot_hex p 11,
      "cursor-text = #" ++ slot_hex p 0,
      "",
      "selection-background = #" ++ slot_hex p 4,
      "selection-foreground = #ffffff"]

/-- C6: the theme writer emits `palette = <index>=#<rrggbb>` for every index
0–15 and derives `background` and `cursor-text` from slot 0, `foreground`
from slot 7, `cursor-color` from slot 11 and `selection-background` from
slot 4; when slot 0 is #000000 the literal lines `palette = 0=#000000` and
`background = #000000` appear. -/
theorem c6_theme_file_lines :
    (∀ p : Palette, ∀ i : Fin 16,
        ("palette = " ++ toString i.val ++ "=#" ++ slot_hex p i) ∈ theme_lines p) ∧
    (∀ p : Palette,
        ("background = #" ++ slot_hex p 0) ∈ theme_lines p ∧
        ("foreground = #" ++ slot_hex p 7) ∈ theme_lines p ∧
        ("cursor-color = #" ++ slot_hex p 11) ∈ theme_lines p ∧
        ("cursor-text = #" ++ slot_hex p 0) ∈ theme_lines p ∧
        ("selection-background = #" ++ slot_hex p 4) ∈ theme_lines p ∧
        "selection-foreground = #ffffff" ∈ theme_lines p) ∧
    (∀ p : Palette, (∀ c, p 0 c = 0) →
        "palette = 0=#000000" ∈ theme_lines p ∧
        "background = #000000" ∈ theme_lines p) := by
  refine ⟨?_, ?_, ?_⟩
  · intro p i
    unfold theme_lines
    refine List.mem_append_left _ (List.mem_append_right _ ?_)
    exact List.mem_map_of_mem _ (List.mem_finRange i)
  · intro p
    unfold theme_lines
    refine ⟨?_, ?_, ?_, ?_, ?_, ?_⟩ <;> simp
  · intro p h
    have hhex : slot_hex p 0 = "000000" := by
      unfold slot_hex
      rw [h 0, h 1, h 2]
      rfl
    constructor
    · have h0 : ("palette = " ++ toString (0 : Fin 16).val ++ "=#" ++ slot_hex p 0)
          ∈ theme_lines p := by
        unfold theme_lines
        refine List.mem_append_left _ (List.mem_append_right _ ?_)
        exact List.mem_map_of_mem _ (List.mem_finRange 0)
      rw [hhex] at h0
      exact h0
    · have h0 : ("background = #" ++ slot_hex p 0) ∈ theme_lines p := by
        unfold theme_lines
        simp
      rw [hhex] at h0
      exact h0

/-! ## WCAG 2.1 color math (src/color.cuh, namespace color::wcag2), over ℝ -/

namespace wcag2

/-- Linearize an sRGB channel value (0–255) to linear light
(src/color.cuh lines 56–62): `v = channel / 255`, then the piecewise sRGB
transfer function with threshold 0.04045. -/
noncomputable def linearize (channel : ℝ) : ℝ :=
  let v := channel / 255
  if v ≤ 0.04045 then v / 12.92 else ((v + 0.055) / 1.055) ^ (2.4 : ℝ)

/-- Relative luminance from sRGB values (src/color.cuh lines 68–70). -/
noncomputable def luminance (r g b : ℝ) : ℝ :=
  0.2126 * linearize r + 0.7152 * linearize g + 0.0722 * linearize b

/-- WCAG 2.1 contrast ratio (src/color.cuh lines 78–91): the two luminances
are swapped so the lighter one is in the numerator, then `(l1+0.05)/(l2+0.05)`. -/
noncomputable def contrast_ratio (r1 g1 b1 r2 g2 b2 : ℝ) : ℝ :=
  if luminance r1 g1 b1 < luminance r2 g2 b2 then
    (luminance r2 g2 b2 + 0.05) / (luminance r1 g1 b1 + 0.05)
  else
    (luminance r1 g1 b1 + 0.05) / (luminance r2 g2 b2 + 0.05)

end wcag2

/-- An sRGB channel value: a real in [0, 255]. -/
def in_range_255 (x : ℝ) : Prop := 0 ≤ x ∧ x ≤ 255

lemma linearize_nonneg {c : ℝ} (hc : 0 ≤ c) : 0 ≤ wcag2.linearize c := by
  simp only [wcag2.linearize]
  by_cases h : c / 255 ≤ 0.04045
  · rw [if_pos h]
    positivity
  · rw [if_neg h]
    have h1 : (0.04045 : ℝ) < c / 255 := not_le.mp h
    apply Real.rpow_nonneg
    exact div_nonneg (by linarith) (by norm_num)

lemma linearize_le_one {c : ℝ} (hc : c ≤ 255) : wcag2.linearize c ≤ 1 := by
  simp only [wcag2.linearize]
  by_cases h : c / 255 ≤ 0.04045
  · rw [if_pos h]
    exact le_trans ((div_le_one (by norm_num : (0:ℝ) < 12.92)).mpr (by linarith)) (by norm_num)
  · rw [if_neg h]
    have h1 : (0.04045 : ℝ) < c / 255 := not_le.mp h
    have hv : c / 255 ≤ 1 := (div_le_one (by norm_num : (0:ℝ) < 255)).mpr hc
    apply Real.rpow_le_one
    · exact div_nonneg (by linarith) (by norm_num)
    · exact (div_le_one (by norm_num : (0:ℝ) < 1.055)).mpr (by linarith)
    · norm_num

lemma luminance_nonneg {r g b : ℝ} (hr : 0 ≤ r) (hg : 0 ≤ g) (hb : 0 ≤ b) :
    0 ≤ wcag2.luminance r g b := by
  have h1 := linearize_nonneg hr
  have h2 := linearize_nonneg hg
  have h3 := linearize_nonneg hb
  unfold wcag2.luminance
  linarith

lemma luminance_le_one {r g b : ℝ} (hr : r ≤ 255) (hg : g ≤ 255) (hb : b ≤ 255) :
    wcag2.luminance r g b ≤ 1 := by
  have h1 := linearize_le_one hr
  have h2 := linearize_le_one hg
  have h3 := linearize_le_one hb
  unfold wcag2.luminance
  linarith

lemma luminance_black : wcag2.luminance 0 0 0 = 0 := by
  simp only [wcag2.luminance, wcag2.linearize]
  norm_num

lemma linearize_white : wcag2.linearize 255 = 1 := by
  simp only [wcag2.linearize]
  rw [if_neg (by norm_num)]
  rw [show ((255 : ℝ) / 255 + 0.055) / 1.055 = 1 from by norm_num]
  exact Real.one_rpow _

lemma luminance_white : wcag2.luminance 255 255 255 = 1 := by
  simp only [wcag2.luminance, linearize_white]
  norm_num

lemma ratio_bounds {a b : ℝ} (ha1 : a ≤ 1) (hb : 0 ≤ b) (hba : b ≤ a) :
    1 ≤ (a + 0.05) / (b + 0.05) ∧ (a + 0.05) / (b + 0.05) ≤ 21 := by
  have hpos : (0 : ℝ) < b + 0.05 := by linarith
  constructor
  · rw [le_div_iff₀ hpos]
    linarith
  · rw [div_le_iff₀ hpos]
    linarith

/-- C7: the WCAG 2.1 contrast ratio is symmetric in its two colors; for
channels in [0, 255] it lies in [1, 21]; and for white against black it is
exactly 21 (so ≈ 21.0). -/
theorem c7_contrast_symmetric_bounded :
    (∀ r1 g1 b1 r2 g2 b2 : ℝ,
        wcag2.contrast_ratio r1 g1 b1 r2 g2 b2 = wcag2.contrast_ratio r2 g2 b2 r1 g1 b1) ∧
    (∀ r1 g1 b1 r2 g2 b2 : ℝ,
        in_range_255 r1 → in_range_255 g1 → in_range_255 b1 →
        in_range_255 r2 → in_range_255 g2 → in_range_255 b2 →
        1 ≤ wcag2.contrast_ratio r1 g1 b1 r2 g2 b2 ∧
          wcag2.contrast_ratio r1 g1 b1 r2 g2 b2 ≤ 21) ∧
    wcag2.contrast_ratio 255 255 255 0 0 0 = 21 := by
  refine ⟨?_, ?_, ?_⟩
  · intro r1 g1 b1 r2 g2 b2
    simp only [wcag2.contrast_ratio]
    rcases lt_trichotomy (wcag2.luminance r1 g1 b1) (wcag2.luminance r2 g2 b2) with h | h | h
    · rw [if_pos h, if_neg (not_lt.mpr (le_of_lt h))]
    · rw [if_neg (not_lt.mpr (le_of_eq h.symm)), if_neg (not_lt.mpr (le_of_eq h)), h]
    · rw [if_neg (not_lt.mpr (le_of_lt h)), if_pos h]
  · intro r1 g1 b1 r2 g2 b2 h1 h2 h3 h4 h5 h6
    have l1n := luminance_nonneg h1.1 h2.1 h3.1
    have l1u := luminance_le_one h1.2 h2.2 h3.2
    have l2n := luminance_nonneg h4.1 h5.1 h6.1
    have l2u := luminance_le_one h4.2 h5.2 h6.2
    simp only [wcag2.contrast_ratio]
    by_cases h : wcag2.luminance r1 g1 b1 < wcag2.luminance r2 g2 b2
    · rw [if_pos h]
      exact ratio_bounds l2u l1n (le_of_lt h)
    · rw [if_neg h]
      exact ratio_bounds l1u l2n (not_lt.mp h)
  · simp only [wcag2.contrast_ratio, luminance_white, luminance_black]
    norm_num

/-- C10: for channels in [0, 255] the WCAG relative luminance lies in [0, 1],
with exact values 0 at black and 1 at white; hence each denominator
`luminance + 0.05` of the contrast-ratio formula is at least 0.05 (and never
zero, so the contrast interface is total on in-range colors). -/
theorem c10_luminance_range :
    (∀ r g b : ℝ, in_range_255 r → in_range_255 g → in_range_255 b →
        0 ≤ wcag2.luminance r g b ∧ wcag2.luminance r g b ≤ 1) ∧
    wcag2.luminance 0 0 0 = 0 ∧
    wcag2.luminance 255 255 255 = 1 ∧
    (∀ r g b : ℝ, 0 ≤ r → 0 ≤ g → 0 ≤ b →
        0.05 ≤ wcag2.luminance r g b + 0.05) := by
  refine ⟨?_, luminance_black, luminance_white, ?_⟩
  · intro r g b hr hg hb
    exact ⟨luminance_nonneg hr.1 hg.1 hb.1, luminance_le_one hr.2 hg.2 hb.2⟩
  · intro r g b hr hg hb
    have := luminance_nonneg hr hg hb
    linarith

/-! ## OKLCH hue distance (src/color.cuh, namespace color::oklch), over ℝ -/

namespace oklch

/-- Angular distance between two hues, handling wraparound
(src/color.cuh lines 428–434): `diff = |h1 - h2|`, folded to the shorter arc
when it exceeds 180. -/
noncomputable def hue_distance (h1 h2 : ℝ) : ℝ :=
  if |h1 - h2| > 180 then 360 - |h1 - h2| else |h1 - h2|

end oklch

/-- C8: hue distance is symmetric, zero on the diagonal, never exceeds 180,
and wraps around the 0°/360° boundary: the distance from 350° to 10° is 20°. -/
theorem c8_hue_distance_props :
    (∀ a b : ℝ, oklch.hue_distance a b = oklch.hue_distance b a) ∧
    (∀ h : ℝ, oklch.hue_distance h h = 0) ∧
    (∀ a b : ℝ, oklch.hue_distance a b ≤ 180) ∧
    oklch.hue_distance 350 10 = 20 := by
  refine ⟨?_, ?_, ?_, ?_⟩
  · intro a b
    simp only [oklch.hue_distance]
    rw [abs_sub_comm a b]
  · intro h
    simp only [oklch.hue_distance, sub_self, abs_zero]
    norm_num
  · intro a b
    simp only [oklch.hue_distance]
    by_cases h : |a - b| > 180
    · rw [if_pos h]
      linarith
    · rw [if_neg h]
      linarith [not_lt.mp h]
  · simp only [oklch.hue_distance]
    rw [show (350 : ℝ) - 10 = 340 from by norm_num,
      abs_of_nonneg (by norm_num : (0 : ℝ) ≤ 340)]
    norm_num

/-! ## APCA contrast (src/color.cuh, namespace color::apca), over ℝ -/

namespace apca

/-- APCA linearization: simple 2.4 gamma (src/color.cuh lines 150–153). -/
noncomputable def srgb_to_linear (channel : ℝ) : ℝ := (channel / 255) ^ (2.4 : ℝ)

/-- APCA luminance with the 0.0.98G-4g coefficients (src/color.cuh 158–162). -/
noncomputable def luminance (r g b : ℝ) : ℝ :=
  0.2126729 * srgb_to_linear r + 0.7151522 * srgb_to_linear g +
    0.0721750 * srgb_to_linear b

/-- Black-level soft clamp (src/color.cuh 168–173): below `blkThrs = 0.022`
add `(blkThrs - y) ^ blkClmp` with `blkClmp = 1.414`. -/
noncomputable def soft_clamp (y : ℝ) : ℝ :=
  if y > 0.022 then y else y + (0.022 - y) ^ (1.414 : ℝ)

/-- APCA Lc contrast (src/color.cuh 187–225): soft-clamped luminances, a
small-delta cutoff at `deltaYmin = 0.0005`, then the normal-polarity branch
(exponents 0.56/0.57) or the reverse-polarity branch (0.65/0.62), each scaled
by 1.14, clipped at `|sapc| < loClip = 0.1` and offset by 0.027, times 100. -/
noncomputable def contrast (text_r text_g text_b bg_r bg_g bg_b : ℝ) : ℝ :=
  let txtY := soft_clamp (luminance text_r text_g text_b)
  let bgY := soft_clamp (luminance bg_r bg_g bg_b)
  let deltaY := bgY - txtY
  if |deltaY| < 0.0005 then 0
  else if bgY > txtY then
    let sapc := (bgY ^ (0.56 : ℝ) - txtY ^ (0.57 : ℝ)) * 1.14
    (if sapc < 0.1 then 0 else sapc - 0.027) * 100
  else
    let sapc := (bgY ^ (0.65 : ℝ) - txtY ^ (0.62 : ℝ)) * 1.14
    (if sapc > -0.1 then 0 else sapc + 0.027) * 100

end apca

lemma srgb_to_linear_white : apca.srgb_to_linear 255 = 1 := by
  unfold apca.srgb_to_linear
  rw [show (255 : ℝ) / 255 = 1 from by norm_num]
  exact Real.one_rpow _

lemma srgb_to_linear_black : apca.srgb_to_linear 0 = 0 := by
  unfold apca.srgb_to_linear
  rw [show (0 : ℝ) / 255 = 0 from by norm_num]
  exact Real.zero_rpow (by norm_num)

lemma apca_luminance_white : apca.luminance 255 255 255 = 1.0000001 := by
  simp only [apca.luminance, srgb_to_linear_white]
  norm_num

lemma apca_luminance_black : apca.luminance 0 0 0 = 0 := by
  simp only [apca.luminance, srgb_to_linear_black]
  norm_num

lemma soft_clamp_white : apca.soft_clamp 1.0000001 = 1.0000001 := by
  unfold apca.soft_clamp
  rw [if_pos (by norm_num : (1.0000001 : ℝ) > 0.022)]

lemma soft_clamp_black : apca.soft_clamp 0 = (0.022 : ℝ) ^ (1.414 : ℝ) := by
  unfold apca.soft_clamp
  rw [if_neg (by norm_num : ¬ ((0 : ℝ) > 0.022)), sub_zero, zero_add]

lemma beta_nonneg : 0 ≤ (0.022 : ℝ) ^ (1.414 : ℝ) :=
  Real.rpow_nonneg (by norm_num) _

lemma beta_le : (0.022 : ℝ) ^ (1.414 : ℝ) ≤ 0.022 := by
  have h := Real.rpow_le_rpow_of_exponent_ge
    (show (0 : ℝ) < 0.022 by norm_num) (show (0.022 : ℝ) ≤ 1 by norm_num)
    (show (1 : ℝ) ≤ 1.414 by norm_num)
  rwa [Real.rpow_one] at h

lemma rpow_nine_tenths_le : (0.022 : ℝ) ^ (0.9 : ℝ) ≤ 0.04 := by
  have key : ((0.022 : ℝ) ^ (0.9 : ℝ)) ^ (10 : ℕ) = (0.022 : ℝ) ^ (9 : ℕ) := by
    rw [← Real.rpow_natCast ((0.022 : ℝ) ^ (0.9 : ℝ)) 10,
      ← Real.rpow_mul (by norm_num : (0 : ℝ) ≤ 0.022),
      show (0.9 : ℝ) * ((10 : ℕ) : ℝ) = ((9 : ℕ) : ℝ) from by norm_num]
    exact Real.rpow_natCast _ 9
  have hpow : ((0.022 : ℝ) ^ (0.9 : ℝ)) ^ (10 : ℕ) ≤ (0.04 : ℝ) ^ (10 : ℕ) := by
    rw [key]
    norm_num
  exact le_of_pow_le_pow_left₀ (by norm_num) (by norm_num) hpow

lemma rpow_four_fifths_le : (0.022 : ℝ) ^ (0.8 : ℝ) ≤ 0.09 := by
  have key : ((0.022 : ℝ) ^ (0.8 : ℝ)) ^ (5 : ℕ) = (0.022 : ℝ) ^ (4 : ℕ) := by
    rw [← Real.rpow_natCast ((0.022 : ℝ) ^ (0.8 : ℝ)) 5,
      ← Real.rpow_mul (by norm_num : (0 : ℝ) ≤ 0.022),
      show (0.8 : ℝ) * ((5 : ℕ) : ℝ) = ((4 : ℕ) : ℝ) from by norm_num]
    exact Real.rpow_natCast _ 4
  have hpow : ((0.022 : ℝ) ^ (0.8 : ℝ)) ^ (5 : ℕ) ≤ (0.09 : ℝ) ^ (5 : ℕ) := by
    rw [key]
    norm_num
  exact le_of_pow_le_pow_left₀ (by norm_num) (by norm_num) hpow

lemma beta_rpow_65_le : ((0.022 : ℝ) ^ (1.414 : ℝ)) ^ (0.65 : ℝ) ≤ 0.04 := by
  rw [← Real.rpow_mul (by norm_num : (0 : ℝ) ≤ 0.022)]
  calc (0.022 : ℝ) ^ (1.414 * 0.65 : ℝ)
      ≤ (0.022 : ℝ) ^ (0.9 : ℝ) :=
        Real.rpow_le_rpow_of_exponent_ge (by norm_num) (by norm_num) (by norm_num)
    _ ≤ 0.04 := rpow_nine_tenths_le

lemma beta_rpow_57_le : ((0.022 : ℝ) ^ (1.414 : ℝ)) ^ (0.57 : ℝ) ≤ 0.09 := by
  rw [← Real.rpow_mul (by norm_num : (0 : ℝ) ≤ 0.022)]
  calc (0.022 : ℝ) ^ (1.414 * 0.57 : ℝ)
      ≤ (0.022 : ℝ) ^ (0.8 : ℝ) :=
        Real.rpow_le_rpow_of_exponent_ge (by norm_num) (by norm_num) (by norm_num)
    _ ≤ 0.09 := rpow_four_fifths_le

lemma beta_rpow_57_ge : (0.022 : ℝ) ≤ ((0.022 : ℝ) ^ (1.414 : ℝ)) ^ (0.57 : ℝ) := by
  rw [← Real.rpow_mul (by norm_num : (0 : ℝ) ≤ 0.022)]
  have h := Real.rpow_le_rpow_of_exponent_ge
    (show (0 : ℝ) < 0.022 by norm_num) (show (0.022 : ℝ) ≤ 1 by norm_num)
    (show (1.414 * 0.57 : ℝ) ≤ 1 by norm_num)
  rwa [Real.rpow_one] at h

lemma one_le_s_rpow {e : ℝ} (he : 0 ≤ e) : 1 ≤ (1.0000001 : ℝ) ^ e := by
  have h := Real.rpow_le_rpow_of_exponent_le
    (show (1 : ℝ) ≤ 1.0000001 by norm_num) he
  rwa [Real.rpow_zero] at h

lemma s_rpow_le_s {e : ℝ} (he : e ≤ 1) : (1.0000001 : ℝ) ^ e ≤ 1.0000001 := by
  have h := Real.rpow_le_rpow_of_exponent_le
    (show (1 : ℝ) ≤ 1.0000001 by norm_num) he
  rwa [Real.rpow_one] at h

/-- C9: APCA is polarity-sensitive: white text on black is ≈ −108 (within ±5),
black text on white is ≈ +106 (within ±5), and a color against itself always
scores 0. -/
theorem c9_apca_polarity :
    (-113 ≤ apca.contrast 255 255 255 0 0 0 ∧
      apca.contrast 255 255 255 0 0 0 ≤ -103) ∧
    (101 ≤ apca.contrast 0 0 0 255 255 255 ∧
      apca.contrast 0 0 0 255 255 255 ≤ 111) ∧
    (∀ r g b : ℝ, apca.contrast r g b r g b = 0) := by
  have htxt : apca.soft_clamp (apca.luminance 255 255 255) = 1.0000001 := by
    rw [apca_luminance_white, soft_clamp_white]
  have hbg : apca.soft_clamp (apca.luminance 0 0 0) = (0.022 : ℝ) ^ (1.414 : ℝ) := by
    rw [apca_luminance_black, soft_clamp_black]
  have hβ0 := beta_nonneg
  have hβu := beta_le
  refine ⟨?_, ?_, ?_⟩
  · -- white text on black background: reverse polarity
    simp only [apca.contrast]
    rw [htxt, hbg]
    set β := (0.022 : ℝ) ^ (1.414 : ℝ) with hβdef
    have h65u : β ^ (0.65 : ℝ) ≤ 0.04 := beta_rpow_65_le
    have h65n : 0 ≤ β ^ (0.65 : ℝ) := Real.rpow_nonneg hβ0 _
    have hS62l : 1 ≤ (1.0000001 : ℝ) ^ (0.62 : ℝ) := one_le_s_rpow (by norm_num)
    have hS62u : (1.0000001 : ℝ) ^ (0.62 : ℝ) ≤ 1.0000001 := s_rpow_le_s (by norm_num)
    rw [if_neg (by
      rw [abs_of_neg (by linarith : β - (1.0000001 : ℝ) < 0)]
      push_neg
      linarith)]
    rw [if_neg (by push_neg; linarith : ¬ (β > (1.0000001 : ℝ)))]
    rw [if_neg (by
      push_neg
      nlinarith : ¬ ((β ^ (0.65 : ℝ) - (1.0000001 : ℝ) ^ (0.62 : ℝ)) * 1.14 > -0.1))]
    constructor
    · nlinarith
    · nlinarith
  · -- black text on white background: normal polarity
    simp only [apca.contrast]
    rw [htxt, hbg]
    set β := (0.022 : ℝ) ^ (1.414 : ℝ) with hβdef
    have h57u : β ^ (0.57 : ℝ) ≤ 0.09 := beta_rpow_57_le
    have h57l : (0.022 : ℝ) ≤ β ^ (0.57 : ℝ) := beta_rpow_57_ge
    have hS56l : 1 ≤ (1.0000001 : ℝ) ^ (0.56 : ℝ) := one_le_s_rpow (by norm_num)
    have hS56u : (1.0000001 : ℝ) ^ (0.56 : ℝ) ≤ 1.0000001 := s_rpow_le_s (by norm_num)
    rw [if_neg (by
      rw [abs_of_nonneg (by linarith : (0 : ℝ) ≤ (1.0000001 : ℝ) - β)]
      push_neg
      linarith)]
    rw [if_pos (by linarith : (1.0000001 : ℝ) > β)]
    rw [if_neg (by
      push_neg
      nlinarith : ¬ (((1.0000001 : ℝ) ^ (0.56 : ℝ) - β ^ (0.57 : ℝ)) * 1.14 < 0.1))]
    constructor
    · nlinarith
    · nlinarith
  · intro r g b
    simp only [apca.contrast, sub_self, abs_zero]
    rw [if_pos (by norm_num : (0 : ℝ) < 0.0005)]
